import Mathlib

/-!
Verification of the RustScan probe engine: a shallow embedding of the
scanner core (socket iterator, LCG range iterator, concurrency pool,
TCP/UDP probe loops, address/port exclusion, batch-size inference),
together with theorems settling the specification claims.
-/

namespace RustScan

/-- IPv4/IPv6 addresses are modelled as natural numbers (the numeric value
of the address); only equality and CIDR-range membership matter here. -/
abbrev IpAddr := Nat

/-- A port number (`u16` in the source). -/
abbrev Port := Nat

/-- A socket address `SocketAddr::new(ip, port)` — a pair of an IP and a port. -/
abbrev SockAddr := IpAddr × Port

/-! ## Socket iterator (src/scanner/socket_iterator.rs)

`SocketIterator::new(ips, ports)` builds `iproduct!(ports_it, ips_it)` and
`next` maps each `(port, ip)` pair to `SocketAddr::new(ip, port)`.  The full
emission sequence of the iterator is therefore the port-outer / ip-inner
cross product, embedded here as the list of all emissions in order. -/
def socketList (ips : List IpAddr) (ports : List Port) : List SockAddr :=
  (ports.map (fun port => ips.map (fun ip => (ip, port)))).flatten

/-! ## CIDR expansion (models `cidr_utils`: `IpInet::network().into_iter().addresses()`)

A CIDR in host-bits-set form is first normalised to its containing network
(host bits cleared), then every address of the block is enumerated in
ascending order. -/
def cidrAddresses (ip : Nat) (prefixLen : Nat) : List IpAddr :=
  let hostBits := 32 - prefixLen
  let network := (ip >>> hostBits) <<< hostBits
  (List.range (2 ^ hostBits)).map (fun k => network + k)

/-! ## Range iterator (src/port_strategy/range_iterator.rs) -/

/-- The state of `RangeIterator` (LCG walk over a normalized range). -/
structure RangeIterator where
  active : Bool
  normalized_end : Nat
  normalized_first_pick : Nat
  normalized_pick : Nat
  actual_start : Nat
  step : Nat

/-- Embeds `RangeIterator::new(start, end)`.  `normalized_end = end - start + 1`;
the step is drawn by `pick_random_coprime` and the first pick uniformly from
`[0, normalized_end)` — both randomly drawn values are parameters here. -/
def RangeIterator.new (start end_ step first_pick : Nat) : RangeIterator :=
  { active := true
    normalized_end := end_ - start + 1
    normalized_first_pick := first_pick
    normalized_pick := first_pick
    actual_start := start
    step := step }

/-- Embeds `Iterator::next` for `RangeIterator`: emit `actual_start + current_pick`,
advance the pick by `step` modulo `normalized_end`, and deactivate once the
next candidate equals the first pick.  (The source converts the emitted value
to `u16`; for port ranges the value `start + pick ≤ end` always fits.) -/
def RangeIterator.next (s : RangeIterator) : Option (Nat × RangeIterator) :=
  if s.active = false then
    none
  else
    let current_pick := s.normalized_pick
    let next_pick := (current_pick + s.step) % s.normalized_end
    some (s.actual_start + current_pick,
      { s with
        active := if next_pick = s.normalized_first_pick then false else s.active
        normalized_pick := next_pick })

/-- All values emitted by repeatedly calling `next`, with enough fuel. -/
def RangeIterator.collect (s : RangeIterator) : Nat → List Nat
  | 0 => []
  | fuel + 1 =>
    match s.next with
    | none => []
    | some (v, s2) => v :: s2.collect fuel

/-- The set of values `pick_random_coprime(end)` can return: either a random
draw from `[end/4, end - end/4)` that is coprime with `end`, or the fallback
`end - 1` after ten failed draws. -/
def pick_random_coprime_possible (end_ c : Nat) : Prop :=
  (end_ / 4 ≤ c ∧ c < end_ - end_ / 4 ∧ Nat.gcd end_ c = 1) ∨ c = end_ - 1

/-- Proof-helper: the `RangeIterator` state reached after `i` emissions, the
pick having advanced `i` times by `step` modulo `normalized_end`. -/
def RangeIterator.stateAt (start N step first_pick i : Nat) : RangeIterator :=
  { active := true
    normalized_end := N
    normalized_first_pick := first_pick
    normalized_pick := (first_pick + i * step) % N
    actual_start := start
    step := step }

/-! ## Concurrency pool (Scanner::run driver loop, src/scanner/mod.rs)

Only the counts matter for the concurrency bound: `remaining` sockets left in
the socket iterator and `inflight` probes in the `FuturesUnordered` pool.
`Scanner::run` first pushes up to `batch_size` probes, then, for each
completed probe the `while let` loop removes, it pushes at most one
replacement pulled from the iterator. -/
structure PoolState where
  remaining : Nat
  inflight : Nat

/-- The pool right after the initialization `for _ in 0..batch_size` loop:
`min batch_size total` probes were spawned, the rest remain in the iterator. -/
def runInitPool (batch_size total : Nat) : PoolState :=
  { remaining := total - min batch_size total
    inflight := min batch_size total }

/-- One iteration of the `while let Some(result) = ftrs.next().await` loop:
a completed probe leaves the pool, and one replacement is spawned if the
socket iterator still has an element.  When the pool is empty the loop has
ended and the state no longer changes. -/
def runPoolStep (s : PoolState) : PoolState :=
  if s.inflight = 0 then s
  else if s.remaining = 0 then { remaining := 0, inflight := s.inflight - 1 }
  else { remaining := s.remaining - 1, inflight := s.inflight }

/-! ## Probe outcomes (Scanner::scan_socket / scan_udp_socket) -/

/-- The outcome the environment gives one TCP `connect` attempt:
either a stream within the timeout, or an error with its display text. -/
inductive ConnectAttempt where
  | ok
  | err (msg : String)
deriving DecidableEq

/-- The outcome the environment gives one `udp_scan` attempt: a datagram
received within the timeout (`Ok(true)`), a timeout (`Ok(false)`), or any
other I/O error (`Err(e)`). -/
inductive UdpAttempt where
  | reply
  | timeout
  | ioError (msg : String)
deriving DecidableEq

/-- The result of one probe: `Ok(socket)`, `Err(message)`, the panic raised
by the `assert!` on descriptor exhaustion, or the `unreachable!()` after the
TCP retry loop. -/
inductive ProbeResult where
  | opened (socket : SockAddr)
  | error (msg : String)
  | abortPanic (msg : String)
  | unreachablePanic
deriving DecidableEq

/-- Sub-list containment on characters, embedding Rust `str::contains`. -/
def containsSublist (pat : List Char) : List Char → Bool
  | [] => pat.isEmpty
  | c :: rest => pat.isPrefixOf (c :: rest) || containsSublist pat rest

/-- Embeds `error_string.to_lowercase().contains("too many open files")`:
the message is lowercased character-wise and searched for the pattern. -/
def tooManyOpenFiles (msg : String) : Bool :=
  containsSublist ("too many open files".data) (msg.data.map Char.toLower)

/-- The message of the `assert!` panic in `Scanner::scan_socket`. -/
def tooManyOpenFilesMsg : String :=
  "Too many open files. Please reduce batch size. The default is 5000. Try -b 2500."

/-- Embeds how `Scanner::new` stores `tries: NonZeroU8::new(max(tries, 1)).unwrap()`. -/
def scannerNewTries (tries : Nat) : Nat :=
  max tries 1

/-- The TCP retry loop of `Scanner::scan_socket`: `for nr_try in 1..=tries`.
A successful connect yields `Ok(socket)` (after shutting the stream down);
an error whose lowercased text contains "too many open files" trips the
`assert!` panic; the last attempt returns `Err` with the IP appended;
otherwise the next attempt runs.  Falling out of the loop would reach
`unreachable!()`. -/
def scanTcpLoop (socket : SockAddr) (tries : Nat)
    (attempts : Nat → ConnectAttempt) (nrTry : Nat) : ProbeResult :=
  if h : tries < nrTry then
    ProbeResult.unreachablePanic
  else
    match attempts nrTry with
    | ConnectAttempt.ok => ProbeResult.opened socket
    | ConnectAttempt.err msg =>
      if tooManyOpenFiles msg then
        ProbeResult.abortPanic tooManyOpenFilesMsg
      else if nrTry = tries then
        ProbeResult.error (msg ++ " " ++ toString socket.1)
      else
        scanTcpLoop socket tries attempts (nrTry + 1)
termination_by tries + 1 - nrTry
decreasing_by omega

/-- The `Err` message produced when every UDP attempt timed out:
`format!("UDP scan timed-out for all tries on socket {socket}")`. -/
def udpTimeoutMsg (socket : SockAddr) : String :=
  "UDP scan timed-out for all tries on socket " ++ toString socket.1 ++ ":"
    ++ toString socket.2

/-- The retry loop of `Scanner::scan_udp_socket`: `for _ in 1..=tries`.
`Ok(true)` returns `Ok(socket)`; `Ok(false)` continues with the next
attempt; `Err(e)` is returned immediately; and when the loop is exhausted
the timed-out `Err` is returned. -/
def scanUdpLoop (tries : Nat) (socket : SockAddr)
    (attempts : Nat → UdpAttempt) (nrTry : Nat) : ProbeResult :=
  if h : tries < nrTry then
    ProbeResult.error (udpTimeoutMsg socket)
  else
    match attempts nrTry with
    | UdpAttempt.reply => ProbeResult.opened socket
    | UdpAttempt.timeout => scanUdpLoop tries socket attempts (nrTry + 1)
    | UdpAttempt.ioError msg => ProbeResult.error msg
termination_by tries + 1 - nrTry
decreasing_by omega

/-- Embeds `Scanner::scan_udp_socket`, which runs its attempt loop from attempt 1.
(The payload lookup in `udp_map` does not influence the result shape.) -/
def scanUdpSocket (tries : Nat) (socket : SockAddr)
    (attempts : Nat → UdpAttempt) : ProbeResult :=
  scanUdpLoop tries socket attempts 1

/-- Embeds `Scanner::scan_socket`: it dispatches to the UDP prober when `self.udp`,
otherwise runs the TCP retry loop from attempt 1. -/
def scanSocket (udp : Bool) (tries : Nat) (socket : SockAddr)
    (udpAttempts : Nat → UdpAttempt)
    (tcpAttempts : Nat → ConnectAttempt) : ProbeResult :=
  if udp then scanUdpSocket tries socket udpAttempts
  else scanTcpLoop socket tries tcpAttempts 1

/-! ## Result handling in the driver loop (Scanner::run) -/

/-- One completed probe as matched by `Scanner::run`. -/
inductive ScanOutcome where
  | ok (socket : SockAddr)
  | err (msg : String)

/-- Models `HashSet<String>::insert`, with the set modelled as a duplicate-free
list (insertion order is immaterial). -/
def errorsInsert (errors : List String) (e : String) : List String :=
  if e ∈ errors then errors else e :: errors

/-- Embeds the `match result` arm of the driver loop: an `Ok(socket)` is pushed onto
`open_sockets`; an `Err(e)` is inserted into `errors` only while
`errors.len() < ips.len() * 1000`. -/
def runHandleResult (ipsLen : Nat) (acc : List SockAddr × List String)
    (r : ScanOutcome) : List SockAddr × List String :=
  match r with
  | ScanOutcome.ok socket => (acc.1 ++ [socket], acc.2)
  | ScanOutcome.err e =>
    (acc.1, if acc.2.length < ipsLen * 1000 then errorsInsert acc.2 e else acc.2)

/-- The accumulated `(open_sockets, errors)` after the driver loop consumed
the given completions in order. -/
def runResults (ipsLen : Nat) (results : List ScanOutcome) :
    List SockAddr × List String :=
  results.foldl (runHandleResult ipsLen) ([], [])

/-! ## Exclusion (Scanner::run port filter and parse_addresses) -/

/-- A CIDR block, modelled by the inclusive address range it covers
(`cidr_utils::IpCidr`). -/
structure IpCidr where
  first : IpAddr
  last : IpAddr

/-- Membership `IpCidr::contains`: the address lies inside the block's range. -/
def IpCidr.contains (c : IpCidr) (ip : IpAddr) : Bool :=
  decide (c.first ≤ ip) && decide (ip ≤ c.last)

/-- The tail of `parse_addresses`:
`ips.retain(|ip| seen.insert(*ip) && !excluded_cidrs.iter().any(|cidr| cidr.contains(ip)))`.
`seen.insert` adds the IP to the seen set and reports whether it was new;
an IP is kept when it is new and no exclusion CIDR contains it. -/
def parseAddressesFilter (excludedCidrs : List IpCidr) :
    List IpAddr → List IpAddr → List IpAddr
  | _, [] => []
  | seen, ip :: rest =>
    if (! seen.contains ip) && (! excludedCidrs.any (fun c => c.contains ip)) then
      ip :: parseAddressesFilter excludedCidrs (ip :: seen) rest
    else
      parseAddressesFilter excludedCidrs (ip :: seen) rest

/-- Deduplication and exclusion applied by `parse_addresses` to the expanded
IP list, starting from an empty seen-set. -/
def parseAddressesDedup (ips : List IpAddr) (excludedCidrs : List IpCidr) :
    List IpAddr :=
  parseAddressesFilter excludedCidrs [] ips

/-- The port list built at the top of `Scanner::run`:
`self.port_strategy.order().iter().filter(|&port| !self.exclude_ports.contains(port))`. -/
def runPorts (order : List Port) (exclude_ports : List Port) : List Port :=
  order.filter (fun port => ! exclude_ports.contains port)

/-! ## Batch-size inference (src/main.rs) -/

def AVERAGE_BATCH_SIZE : Nat := 3000

def DEFAULT_FILE_DESCRIPTORS_LIMIT : Nat := 8000

/-- Embeds `infer_batch_size(opts, ulimit)`: clamp the requested batch size against
the soft descriptor limit. -/
def infer_batch_size (batch_size ulimit : Nat) : Nat :=
  if ulimit < batch_size then
    if ulimit < AVERAGE_BATCH_SIZE then
      ulimit / 2
    else if DEFAULT_FILE_DESCRIPTORS_LIMIT < ulimit then
      AVERAGE_BATCH_SIZE
    else
      ulimit - 100
  else
    batch_size

/-! # Theorems -/

/-! ## C1: the in-flight probe count never exceeds batch_size -/

theorem runPoolStep_inflight_le {b : Nat} (s : PoolState) (h : s.inflight ≤ b) :
    (runPoolStep s).inflight ≤ b := by
  unfold runPoolStep
  split
  · exact h
  · split <;> simp <;> omega

/-- C1: for every scan, the number of in-flight probe tasks never exceeds
`batch_size`: the initialization loop of `Scanner::run` spawns at most
`batch_size` probes, and every later driver-loop iteration replaces at most
one completed probe, so after any number of loop iterations the in-flight
set has size at most `batch_size`. -/
theorem c1_concurrency_bound (batch_size total n : Nat) :
    (runPoolStep^[n] (runInitPool batch_size total)).inflight ≤ batch_size := by
  induction n with
  | zero => simp [runInitPool]
  | succ n ih =>
    rw [Function.iterate_succ_apply']
    exact runPoolStep_inflight_le _ ih

/-! ## C10: infer_batch_size -/

/-- C10 counterexample: the claim says `infer_batch_size` always returns a
positive integer, but with requested batch size 2 and descriptor limit 1 the
halving branch returns `1 / 2 = 0`. -/
theorem c10_counterexample :
    infer_batch_size 2 1 = 0 ∧ ¬ (0 < infer_batch_size 2 1) := by
  decide

/-- C10 (amended): `infer_batch_size` never exceeds the effective descriptor
limit and follows the documented case analysis (limit/2 when the limit is
below the requested size and below the average batch size 3000; 3000 when
the limit is below the requested size but above 8000; limit - 100 in the
remaining below-request case; the requested size unchanged otherwise).  The
result is positive provided the requested size is positive and, in the
halving case, the limit is at least 2. -/
theorem c10_amended (batch_size ulimit : Nat) :
    infer_batch_size batch_size ulimit ≤ ulimit ∧
    (ulimit < batch_size → ulimit < 3000 →
      infer_batch_size batch_size ulimit = ulimit / 2) ∧
    (ulimit < batch_size → 3000 ≤ ulimit → 8000 < ulimit →
      infer_batch_size batch_size ulimit = 3000) ∧
    (ulimit < batch_size → 3000 ≤ ulimit → ulimit ≤ 8000 →
      infer_batch_size batch_size ulimit = ulimit - 100) ∧
    (batch_size ≤ ulimit → infer_batch_size batch_size ulimit = batch_size) ∧
    (1 ≤ batch_size → (ulimit < batch_size → ulimit < 3000 → 2 ≤ ulimit) →
      1 ≤ infer_batch_size batch_size ulimit) := by
  unfold infer_batch_size AVERAGE_BATCH_SIZE DEFAULT_FILE_DESCRIPTORS_LIMIT
  refine ⟨?_, ?_, ?_, ?_, ?_, ?_⟩ <;> repeat' split <;> try intros
  all_goals omega

/-- C10 amended witness at batch size 4500 and limit 120: the halving branch
returns 60, which is positive and within the limit. -/
theorem c10_amended_witness :
    infer_batch_size 4500 120 = 120 / 2 ∧ infer_batch_size 4500 120 ≤ 120 ∧
    1 ≤ infer_batch_size 4500 120 :=
  ⟨(c10_amended 4500 120).2.1 (by decide) (by decide),
   (c10_amended 4500 120).1,
   (c10_amended 4500 120).2.2.2.2.2 (by decide) (fun _ _ => by decide)⟩

/-! ## C9: bounded deduplicated error set, all opens kept -/

theorem runResults_foldl_spec (ipsLen : Nat) (results : List ScanOutcome) :
    ∀ acc : List SockAddr × List String,
      acc.2.length ≤ ipsLen * 1000 → acc.2.Nodup →
      (results.foldl (runHandleResult ipsLen) acc).2.length ≤ ipsLen * 1000 ∧
      (results.foldl (runHandleResult ipsLen) acc).2.Nodup ∧
      (results.foldl (runHandleResult ipsLen) acc).1 =
        acc.1 ++ results.filterMap
          (fun r => match r with
            | ScanOutcome.ok s => some s
            | ScanOutcome.err _ => none) := by
  induction results with
  | nil => intro acc hlen hnd; simp [hlen, hnd]
  | cons r rest ih =>
    intro acc hlen hnd
    cases r with
    | ok socket =>
      have h := ih (acc.1 ++ [socket], acc.2) hlen hnd
      simpa [runHandleResult, List.filterMap_cons] using h
    | err e =>
      by_cases hcap : acc.2.length < ipsLen * 1000
      · by_cases hmem : e ∈ acc.2
        · have h := ih (acc.1, acc.2) hlen hnd
          simpa [runHandleResult, errorsInsert, hcap, hmem, List.filterMap_cons]
            using h
        · have h := ih (acc.1, e :: acc.2)
            (by simpa using hcap) (by simp [hnd, hmem])
          simpa [runHandleResult, errorsInsert, hcap, hmem, List.filterMap_cons]
            using h
      · have h := ih (acc.1, acc.2) hlen hnd
        simpa [runHandleResult, hcap, List.filterMap_cons] using h

/-- C9: non-fatal probe errors are collected into a deduplicated set whose
size never exceeds `|ips| * 1000` (insertion only happens while the set is
below the cap), while every `Ok(socket)` completion is appended to
`open_sockets` no matter how many errors occurred. -/
theorem c9_error_cap (ipsLen : Nat) (results : List ScanOutcome) :
    (runResults ipsLen results).2.length ≤ ipsLen * 1000 ∧
    (runResults ipsLen results).2.Nodup ∧
    (runResults ipsLen results).1 =
      results.filterMap
        (fun r => match r with
          | ScanOutcome.ok s => some s
          | ScanOutcome.err _ => none) := by
  have h := runResults_foldl_spec ipsLen results ([], []) (by simp) (by simp)
  simpa [runResults] using h

/-! ## C2: the socket iterator enumerates ports-outer, ips-inner -/

theorem socketList_cons (ips : List IpAddr) (p : Port) (ps : List Port) :
    socketList ips (p :: ps) =
      ips.map (fun ip => (ip, p)) ++ socketList ips ps := rfl

theorem socketList_length (ips : List IpAddr) (ports : List Port) :
    (socketList ips ports).length = ips.length * ports.length := by
  induction ports with
  | nil => simp [socketList]
  | cons p ps ih =>
    rw [socketList_cons, List.length_append, List.length_map, ih,
      List.length_cons, Nat.mul_succ]
    omega

theorem socketList_index (ips : List IpAddr) (ports : List Port) :
    ∀ i, i < ips.length * ports.length →
      (socketList ips ports)[i]? =
        some (ips.getD (i % ips.length) 0, ports.getD (i / ips.length) 0) := by
  induction ports with
  | nil => intro i hi; simp at hi
  | cons p ps ih =>
    intro i hi
    have hn : 0 < ips.length := by
      rcases Nat.eq_zero_or_pos ips.length with h | h
      · rw [h] at hi; simp at hi
      · exact h
    rw [socketList_cons, List.getElem?_append, List.length_map]
    by_cases hcase : i < ips.length
    · rw [if_pos hcase, List.getElem?_map, List.getElem?_eq_getElem hcase,
        Nat.mod_eq_of_lt hcase, Nat.div_eq_of_lt hcase]
      simp [List.getD_eq_getElem?_getD, List.getElem?_eq_getElem hcase]
    · rw [if_neg hcase]
      push_neg at hcase
      have hi2 : i - ips.length < ips.length * ps.length := by
        rw [List.length_cons, Nat.mul_succ] at hi
        omega
      rw [ih (i - ips.length) hi2]
      have hmod : (i - ips.length) % ips.length = i % ips.length :=
        (Nat.mod_eq_sub_mod hcase).symm
      have hdiv : i / ips.length = (i - ips.length) / ips.length + 1 :=
        Nat.div_eq_sub_div hn hcase
      rw [hmod, hdiv, List.getD_cons_succ]

/-- C2: for non-empty IP and port lists the socket iterator emits the full
cross product with ports as the outer loop and IPs as the inner loop: it
yields `|ips| * |ports|` sockets and emission `i` is
`(ips[i % |ips|], ports[i / |ips|])`; in particular for the IPs expanded
from `192.168.0.0/30` and ports `[80, 443]` it emits the four hosts on port
80 and then the four hosts on port 443, 8 sockets in total. -/
theorem c2_socket_iterator (ips : List IpAddr) (ports : List Port) (i : Nat)
    (hi : i < ips.length * ports.length) :
    (socketList ips ports).length = ips.length * ports.length ∧
    (socketList ips ports)[i]? =
      some (ips.getD (i % ips.length) 0, ports.getD (i / ips.length) 0) ∧
    socketList (cidrAddresses 3232235520 30) [80, 443] =
      [(3232235520, 80), (3232235521, 80), (3232235522, 80), (3232235523, 80),
       (3232235520, 443), (3232235521, 443), (3232235522, 443), (3232235523, 443)] :=
  ⟨socketList_length ips ports, socketList_index ips ports i hi, by decide⟩

/-- C2 witness: with IPs `[10, 20]` and ports `[1, 2, 3]`, emission 3 is the
second IP on the second port. -/
theorem c2_socket_iterator_witness :
    (socketList [10, 20] [1, 2, 3])[3]? = some (20, 2) :=
  (c2_socket_iterator [10, 20] [1, 2, 3] 3 (by decide)).2.1

/-! ## C5: no emitted socket has an excluded IP or port -/

theorem socketList_mem (ips : List IpAddr) (ports : List Port) (s : SockAddr)
    (h : s ∈ socketList ips ports) : s.1 ∈ ips ∧ s.2 ∈ ports := by
  simp only [socketList, List.mem_flatten, List.mem_map] at h
  obtain ⟨l, ⟨p, hp, hl⟩, hs⟩ := h
  subst hl
  simp only [List.mem_map] at hs
  obtain ⟨ip, hip, hs⟩ := hs
  subst hs
  exact ⟨hip, hp⟩

theorem parseAddressesFilter_not_excluded (excludedCidrs : List IpCidr) :
    ∀ (l seen : List IpAddr) (ip : IpAddr),
      ip ∈ parseAddressesFilter excludedCidrs seen l →
      excludedCidrs.any (fun c => c.contains ip) = false := by
  intro l
  induction l with
  | nil => intro seen ip h; simp [parseAddressesFilter] at h
  | cons a rest ih =>
    intro seen ip h
    simp only [parseAddressesFilter] at h
    split at h
    · rename_i hcond
      rw [List.mem_cons] at h
      rcases h with h | h
      · subst h
        rw [Bool.and_eq_true] at hcond
        simpa using hcond.2
      · exact ih _ ip h
    · exact ih _ ip h

/-- C5: for every scan plan, no socket handed to a probe has a port in
`exclude_ports` (`Scanner::run` filters the ordered port list before
building the socket iterator) and none has an IP inside any exclusion CIDR
(`parse_addresses` retains only IPs contained in no excluded CIDR). -/
theorem c5_exclusion (order exclude_ports : List Port) (rawIps : List IpAddr)
    (excludedCidrs : List IpCidr) (s : SockAddr)
    (hmem : s ∈ socketList (parseAddressesDedup rawIps excludedCidrs)
      (runPorts order exclude_ports)) :
    excludedCidrs.all (fun c => ! c.contains s.1) = true ∧
    exclude_ports.contains s.2 = false := by
  obtain ⟨hip, hport⟩ := socketList_mem _ _ s hmem
  constructor
  · have h := parseAddressesFilter_not_excluded excludedCidrs rawIps [] s.1 hip
    rw [List.all_eq_true]
    intro c hc
    rw [List.any_eq_false] at h
    simpa using h c hc
  · rw [runPorts, List.mem_filter] at hport
    simpa using hport.2

/-- C5 witness: with raw IPs `[1, 5]`, exclusion CIDR covering exactly `5`,
ports `[80, 9000]` and excluded port `9000`, the emitted socket `(1, 80)`
avoids both exclusions. -/
theorem c5_exclusion_witness :
    ([IpCidr.mk 5 5]).all (fun c => ! c.contains (1, 80).1) = true ∧
    ([9000] : List Port).contains (1, 80).2 = false :=
  c5_exclusion [80, 9000] [9000] [1, 5] [IpCidr.mk 5 5] (1, 80) (by decide)

/-! ## RangeIterator lemmas shared by C3 and C4 -/

theorem RangeIterator.collect_inactive (s : RangeIterator)
    (hs : s.active = false) : ∀ fuel, s.collect fuel = [] := by
  intro fuel
  cases fuel with
  | zero => rfl
  | succ fuel => simp [RangeIterator.collect, RangeIterator.next, hs]

theorem RangeIterator.collect_succ_active (s : RangeIterator) (fuel : Nat)
    (ha : s.active = true) :
    s.collect (fuel + 1) = (s.actual_start + s.normalized_pick) ::
      RangeIterator.collect
        { s with
          active := if (s.normalized_pick + s.step) % s.normalized_end
              = s.normalized_first_pick then false else s.active
          normalized_pick := (s.normalized_pick + s.step) % s.normalized_end }
        fuel := by
  simp [RangeIterator.collect, RangeIterator.next, ha]

theorem walk_ne_first {N step first_pick : Nat} (hg : Nat.gcd N step = 1)
    (hp : first_pick < N) {j : Nat} (hj0 : 0 < j) (hjN : j < N) :
    (first_pick + j * step) % N ≠ first_pick := by
  intro h
  have hmod : first_pick + j * step ≡ first_pick + 0 [MOD N] := by
    show (first_pick + j * step) % N = (first_pick + 0) % N
    rw [h, Nat.add_zero, Nat.mod_eq_of_lt hp]
  have h2 : j * step ≡ 0 [MOD N] :=
    Nat.ModEq.add_left_cancel' first_pick hmod
  have hdvd : N ∣ j * step := Nat.modEq_zero_iff_dvd.mp h2
  have hdvdj : N ∣ j := Nat.Coprime.dvd_of_dvd_mul_right hg hdvd
  exact absurd (Nat.le_of_dvd hj0 hdvdj) (by omega)

theorem RangeIterator.collect_stateAt_last (start N step first_pick i fuel : Nat)
    (heq : (first_pick + (i + 1) * step) % N = first_pick) :
    (RangeIterator.stateAt start N step first_pick i).collect (fuel + 1) =
      [start + (first_pick + i * step) % N] := by
  have heq2 : (first_pick + i * step + step) % N = first_pick := by
    rw [show first_pick + i * step + step = first_pick + (i + 1) * step by ring]
    exact heq
  simp [RangeIterator.collect, RangeIterator.next, RangeIterator.stateAt,
    Nat.mod_add_mod, heq2, RangeIterator.collect_inactive]

theorem RangeIterator.collect_stateAt_succ (start N step first_pick i fuel : Nat)
    (hne : (first_pick + (i + 1) * step) % N ≠ first_pick) :
    (RangeIterator.stateAt start N step first_pick i).collect (fuel + 1) =
      (start + (first_pick + i * step) % N) ::
        (RangeIterator.stateAt start N step first_pick (i + 1)).collect fuel := by
  have hne2 : ¬ ((first_pick + i * step + step) % N = first_pick) := by
    rw [show first_pick + i * step + step = first_pick + (i + 1) * step by ring]
    exact hne
  simp only [RangeIterator.collect, RangeIterator.next, RangeIterator.stateAt,
    Nat.mod_add_mod]
  rw [if_neg (by simp), if_neg hne2]
  have harg : first_pick + i * step + step = first_pick + (i + 1) * step := by ring
  rw [harg]

theorem RangeIterator.collect_stateAt (start N step first_pick : Nat)
    (hN : 0 < N) (hp : first_pick < N) (hg : Nat.gcd N step = 1) :
    ∀ (fuel i : Nat), i < N →
      (RangeIterator.stateAt start N step first_pick i).collect fuel =
        (List.range (min fuel (N - i))).map
          (fun j => start + (first_pick + (i + j) * step) % N) := by
  intro fuel
  induction fuel with
  | zero => intro i hi; simp [RangeIterator.collect]
  | succ fuel ih =>
    intro i hi
    by_cases hlast : i + 1 = N
    · have hpick : (first_pick + (i + 1) * step) % N = first_pick := by
        rw [hlast, Nat.add_mul_mod_self_left, Nat.mod_eq_of_lt hp]
      rw [RangeIterator.collect_stateAt_last start N step first_pick i fuel hpick]
      have hmin : min (fuel + 1) (N - i) = 1 := by omega
      rw [hmin, show List.range 1 = [0] by rfl, List.map_singleton]
      rfl
    · have hne : (first_pick + (i + 1) * step) % N ≠ first_pick :=
        walk_ne_first hg hp (by omega) (by omega)
      rw [RangeIterator.collect_stateAt_succ start N step first_pick i fuel hne,
        ih (i + 1) (by omega)]
      have hmin : min (fuel + 1) (N - i) = min fuel (N - (i + 1)) + 1 := by
        omega
      rw [hmin, List.range_succ_eq_map, List.map_cons, List.map_map]
      congr 1
      apply List.map_congr_left
      intro a _
      simp only [Function.comp]
      rw [show i + Nat.succ a = i + 1 + a by omega]

theorem RangeIterator.new_eq_stateAt (start end_ step first_pick : Nat)
    (hp : first_pick < end_ - start + 1) :
    RangeIterator.new start end_ step first_pick =
      RangeIterator.stateAt start (end_ - start + 1) step first_pick 0 := by
  simp [RangeIterator.new, RangeIterator.stateAt, Nat.mod_eq_of_lt hp]

theorem gcd_of_pick (N step : Nat) (hN : 0 < N)
    (h : pick_random_coprime_possible N step) : Nat.gcd N step = 1 := by
  rcases h with ⟨_, _, hg⟩ | rfl
  · exact hg
  · obtain ⟨k, rfl⟩ : ∃ k, N = k + 1 := ⟨N - 1, by omega⟩
    have h1 : Nat.gcd (k + 1) k = Nat.gcd 1 k := Nat.gcd_self_add_left k 1
    simp


theorem walk_perm_range (N step first_pick : Nat) (hN : 0 < N)
    (hp : first_pick < N) (hg : Nat.gcd N step = 1) :
    ((List.range N).map (fun j => (first_pick + j * step) % N)).Perm
      (List.range N) := by
  have hnodup :
      ((List.range N).map (fun j => (first_pick + j * step) % N)).Nodup := by
    refine List.Nodup.map_on ?_ (List.nodup_range N)
    intro x hx y hy hxy
    rw [List.mem_range] at hx hy
    have h1 : first_pick + x * step ≡ first_pick + y * step [MOD N] := hxy
    have hmx : x * step ≡ y * step [MOD N] :=
      Nat.ModEq.add_left_cancel' first_pick h1
    have hxym : x ≡ y [MOD N] := Nat.ModEq.cancel_right_of_coprime hg hmx
    have h2 : x % N = y % N := hxym
    rwa [Nat.mod_eq_of_lt hx, Nat.mod_eq_of_lt hy] at h2
  have hsub : (List.range N).map (fun j => (first_pick + j * step) % N)
      ⊆ List.range N := by
    intro x hx
    rw [List.mem_map] at hx
    obtain ⟨j, _, hj⟩ := hx
    rw [List.mem_range, ← hj]
    exact Nat.mod_lt _ hN
  exact (List.subperm_of_subset hnodup hsub).perm_of_length_le (by simp)

/-- C3: for every range with `end ≥ start`, every step value
`pick_random_coprime` can return and every starting offset below the range
size, the LCG walk of `RangeIterator` emits every integer in
`[start, end]` exactly once (a permutation of the range) before going
inactive — collecting with any sufficient fuel yields exactly that
permutation. -/
theorem c3_random_range_permutation (start end_ step first_pick fuel : Nat)
    (hse : start ≤ end_)
    (hstep : pick_random_coprime_possible (end_ - start + 1) step)
    (hp : first_pick < end_ - start + 1)
    (hfuel : end_ - start + 1 ≤ fuel) :
    ((RangeIterator.new start end_ step first_pick).collect fuel).Perm
      (List.range' start (end_ - start + 1)) := by
  set N := end_ - start + 1 with hNdef
  have hN : 0 < N := by omega
  have hg := gcd_of_pick N step hN hstep
  rw [RangeIterator.new_eq_stateAt start end_ step first_pick hp,
    RangeIterator.collect_stateAt start N step first_pick hN hp hg fuel 0 hN]
  have hmin : min fuel (N - 0) = N := by omega
  rw [hmin]
  have hsimp :
      (List.range N).map (fun j => start + (first_pick + (0 + j) * step) % N)
      = ((List.range N).map (fun j => (first_pick + j * step) % N)).map
          (fun x => start + x) := by
    rw [List.map_map]
    apply List.map_congr_left
    intro a _
    simp [Function.comp]
  rw [hsimp, List.range'_eq_map_range]
  exact List.Perm.map _ (walk_perm_range N step first_pick hN hp hg)

/-- C3 witness: range `1..=4` with the fallback step `3 = N - 1` and first
pick 2 emits a permutation of `[1, 2, 3, 4]`. -/
theorem c3_random_range_permutation_witness :
    ((RangeIterator.new 1 4 3 2).collect 4).Perm (List.range' 1 (4 - 1 + 1)) :=
  c3_random_range_permutation 1 4 3 2 4 (by decide) (Or.inr (by decide))
    (by decide) (by decide)

/-! ## C4: adjacency of consecutive emissions -/

theorem RangeIterator.collect_head (s : RangeIterator) (fuel : Nat)
    (h : 0 < (s.collect fuel).length) :
    (s.collect fuel).getD 0 0 = s.actual_start + s.normalized_pick := by
  cases fuel with
  | zero => simp [RangeIterator.collect] at h
  | succ fuel =>
    cases ha : s.active with
    | false => rw [s.collect_inactive ha] at h; simp at h
    | true => rw [s.collect_succ_active fuel ha]; rfl

theorem RangeIterator.collect_consecutive (fuel : Nat) :
    ∀ (s : RangeIterator) (i : Nat),
      0 < s.normalized_end → s.normalized_pick < s.normalized_end →
      i + 1 < (s.collect fuel).length →
      ∃ a, a < s.normalized_end ∧
        (s.collect fuel).getD i 0 = s.actual_start + a ∧
        (s.collect fuel).getD (i + 1) 0 =
          s.actual_start + ((a + s.step) % s.normalized_end) := by
  induction fuel with
  | zero => intro s i _ _ h; simp [RangeIterator.collect] at h
  | succ fuel ih =>
    intro s i hN hpick hlen
    cases ha : s.active with
    | false => rw [s.collect_inactive ha] at hlen; simp at hlen
    | true =>
      rw [s.collect_succ_active fuel ha] at hlen ⊢
      set s2 : RangeIterator :=
        { s with
          active := if (s.normalized_pick + s.step) % s.normalized_end
              = s.normalized_first_pick then false else s.active
          normalized_pick := (s.normalized_pick + s.step) % s.normalized_end }
        with hs2def
      simp only [List.length_cons] at hlen
      cases i with
      | zero =>
        refine ⟨s.normalized_pick, hpick, rfl, ?_⟩
        rw [List.getD_cons_succ]
        exact RangeIterator.collect_head s2 fuel (by omega)
      | succ j =>
        rw [List.getD_cons_succ, List.getD_cons_succ]
        exact ih s2 j hN (Nat.mod_lt _ hN) (by omega)

/-- C4 counterexample: the claim asserts consecutive emissions are never
adjacent for every step `pick_random_coprime` can return, including the
fallback `N - 1`.  For the range `1..=10`, fallback step `9` and first pick
5, the first two emissions are 6 and 5, which are adjacent. -/
theorem c4_counterexample :
    pick_random_coprime_possible 10 9 ∧
    Nat.dist (((RangeIterator.new 1 10 9 5).collect 10).getD 0 0)
      (((RangeIterator.new 1 10 9 5).collect 10).getD 1 0) = 1 := by
  constructor
  · exact Or.inr (by decide)
  · decide

/-- C4 (amended): consecutive values emitted by `RangeIterator` are never
adjacent integers provided the chosen step is neither 1 nor `N - 1`
(`2 ≤ step ≤ N - 2`, where `N = end - start + 1`); with step 1 or the
fallback step `N - 1` — both of which `pick_random_coprime` can return —
adjacent consecutive emissions do occur. -/
theorem c4_amended_no_adjacent (start end_ step first_pick fuel i : Nat)
    (hstep2 : 2 ≤ step) (hstepN : step + 2 ≤ end_ - start + 1)
    (hp : first_pick < end_ - start + 1)
    (hi : i + 1 <
      ((RangeIterator.new start end_ step first_pick).collect fuel).length) :
    Nat.dist
      (((RangeIterator.new start end_ step first_pick).collect fuel).getD i 0)
      (((RangeIterator.new start end_ step first_pick).collect fuel).getD
        (i + 1) 0) ≠ 1 := by
  set N := end_ - start + 1 with hNdef
  have hN : 0 < N := by omega
  obtain ⟨a, ha, h1, h2⟩ := RangeIterator.collect_consecutive fuel
    (RangeIterator.new start end_ step first_pick) i hN hp hi
  have ha2 : a < N := ha
  rw [h1, h2]
  clear ha h1 h2 hi
  show Nat.dist (start + a) (start + (a + step) % N) ≠ 1
  rcases Nat.lt_or_ge (a + step) N with h | h
  · rw [Nat.mod_eq_of_lt h]
    simp only [Nat.dist]
    omega
  · rw [Nat.mod_eq_sub_mod h, Nat.mod_eq_of_lt (by omega)]
    simp only [Nat.dist]
    omega

/-- C4 amended witness: for the range `1..=10` with step 3 and first pick 5,
the first two emissions are not adjacent. -/
theorem c4_amended_no_adjacent_witness :
    Nat.dist (((RangeIterator.new 1 10 3 5).collect 10).getD 0 0)
      (((RangeIterator.new 1 10 3 5).collect 10).getD 1 0) ≠ 1 :=
  c4_amended_no_adjacent 1 10 3 5 10 0 (by decide) (by decide) (by decide)
    (by decide)

/-! ## C7: tries is coerced to at least 1 and unreachable!() is dead code -/

theorem scanTcpLoop_ne_unreachable (socket : SockAddr)
    (attempts : Nat → ConnectAttempt) (tries : Nat) :
    ∀ d nrTry, tries - nrTry = d → nrTry ≤ tries →
      scanTcpLoop socket tries attempts nrTry ≠
        ProbeResult.unreachablePanic := by
  intro d
  induction d with
  | zero =>
    intro nrTry hd hle
    have heq : nrTry = tries := by omega
    subst heq
    rw [scanTcpLoop, dif_neg (by omega)]
    cases hatt : attempts nrTry with
    | ok => simp
    | err msg =>
      by_cases htm : tooManyOpenFiles msg = true
      · simp [htm]
      · simp [htm]
  | succ d ihd =>
    intro nrTry hd hle
    rw [scanTcpLoop, dif_neg (by omega)]
    cases hatt : attempts nrTry with
    | ok => simp
    | err msg =>
      by_cases htm : tooManyOpenFiles msg = true
      · simp [htm]
      · have hne : ¬ (nrTry = tries) := by omega
        simp only [htm, hne, Bool.false_eq_true, if_false]
        exact ihd (nrTry + 1) (by omega) (by omega)

/-- C7: `Scanner::new` stores a retry count of `max(tries, 1) ≥ 1` even for
input 0, and with a positive retry count the TCP probe loop in
`scan_socket` always returns on some attempt in `1..=tries`, so the
`unreachable!()` after the loop is dead code. -/
theorem c7_tries_coerced_unreachable_dead (tries : Nat) (socket : SockAddr)
    (udpAttempts : Nat → UdpAttempt) (tcpAttempts : Nat → ConnectAttempt) :
    1 ≤ scannerNewTries tries ∧
    scanSocket false (scannerNewTries tries) socket udpAttempts tcpAttempts ≠
      ProbeResult.unreachablePanic := by
  constructor
  · simp only [scannerNewTries]
    omega
  · show scanTcpLoop socket (scannerNewTries tries) tcpAttempts 1 ≠ _
    exact scanTcpLoop_ne_unreachable socket tcpAttempts (scannerNewTries tries)
      (scannerNewTries tries - 1) 1 rfl
      (by simp only [scannerNewTries]; omega)

/-! ## C6: descriptor exhaustion aborts TCP probes but not UDP probes -/

theorem scanTcpLoop_abort (socket : SockAddr) (attempts : Nat → ConnectAttempt)
    (tries : Nat) :
    ∀ d nrTry msg k, k - nrTry = d → nrTry ≤ k → k ≤ tries →
      attempts k = ConnectAttempt.err msg → tooManyOpenFiles msg = true →
      (∀ j, nrTry ≤ j → j < k → ∃ m, attempts j = ConnectAttempt.err m ∧
        tooManyOpenFiles m = false) →
      scanTcpLoop socket tries attempts nrTry =
        ProbeResult.abortPanic tooManyOpenFilesMsg := by
  intro d
  induction d with
  | zero =>
    intro nrTry msg k hd h1 h2 hk htm hbef
    have heq : nrTry = k := by omega
    subst heq
    rw [scanTcpLoop, dif_neg (by omega), hk]
    simp [htm]
  | succ d ihd =>
    intro nrTry msg k hd h1 h2 hk htm hbef
    have hlt : nrTry < k := by omega
    obtain ⟨m, hm, hmf⟩ := hbef nrTry (Nat.le_refl _) hlt
    rw [scanTcpLoop, dif_neg (by omega), hm]
    have hne : ¬ (nrTry = tries) := by omega
    simp only [hmf, hne, Bool.false_eq_true, if_false]
    exact ihd (nrTry + 1) msg k (by omega) (by omega) h2 hk htm
      (fun j hj1 hj2 => hbef j (by omega) hj2)

theorem scanUdpLoop_ne_abort (tries : Nat) (socket : SockAddr)
    (attempts : Nat → UdpAttempt) :
    ∀ d nrTry m, tries + 1 - nrTry = d →
      scanUdpLoop tries socket attempts nrTry ≠ ProbeResult.abortPanic m := by
  intro d
  induction d with
  | zero =>
    intro nrTry m hd
    rw [scanUdpLoop, dif_pos (by omega)]
    simp
  | succ d ihd =>
    intro nrTry m hd
    rw [scanUdpLoop]
    by_cases hc : tries < nrTry
    · rw [dif_pos hc]
      simp
    · rw [dif_neg hc]
      cases hatt : attempts nrTry with
      | reply => simp
      | timeout => exact ihd (nrTry + 1) m (by omega)
      | ioError msg => simp

/-- C6 counterexample: the claim extends the descriptor-exhaustion abort to
UDP probes, but `scan_udp_socket` has no such check: a UDP probe whose I/O
error text matches "too many open files" is returned as an ordinary
per-socket `Err`, not an abort. -/
theorem c6_counterexample :
    tooManyOpenFiles ("Too many open files") = true ∧
    scanSocket true 1 (2130706433, 53)
      (fun _ => UdpAttempt.ioError ("Too many open files"))
      (fun _ => ConnectAttempt.ok)
      = ProbeResult.error ("Too many open files") := by
  constructor
  · decide
  · show scanUdpLoop 1 (2130706433, 53)
      (fun _ => UdpAttempt.ioError ("Too many open files")) 1 = _
    rw [scanUdpLoop, dif_neg (by omega)]

/-- C6 (amended): if a TCP probe attempt reports an error whose text
matches "too many open files" case-insensitively (earlier attempts having
failed with non-matching errors), the scan is hard-aborted via the
`assert!` panic instructing reduction of `batch_size` — no retry and no
per-socket `Error` result; a UDP probe, by contrast, never aborts this
way. -/
theorem c6_amended_abort_tcp_only (tries k : Nat) (socket : SockAddr)
    (udpAttempts : Nat → UdpAttempt) (tcpAttempts : Nat → ConnectAttempt)
    (msg : String) (h1 : 1 ≤ k) (h2 : k ≤ tries)
    (hk : tcpAttempts k = ConnectAttempt.err msg)
    (htm : tooManyOpenFiles msg = true)
    (hbef : ∀ j, 1 ≤ j → j < k → ∃ m, tcpAttempts j = ConnectAttempt.err m ∧
      tooManyOpenFiles m = false) :
    scanSocket false tries socket udpAttempts tcpAttempts =
      ProbeResult.abortPanic tooManyOpenFilesMsg ∧
    ∀ m, scanSocket true tries socket udpAttempts tcpAttempts ≠
      ProbeResult.abortPanic m := by
  constructor
  · show scanTcpLoop socket tries tcpAttempts 1 = _
    exact scanTcpLoop_abort socket tcpAttempts tries (k - 1) 1 msg k
      (by omega) h1 h2 hk htm hbef
  · intro m
    show scanUdpLoop tries socket udpAttempts 1 ≠ _
    exact scanUdpLoop_ne_abort tries socket udpAttempts tries 1 m (by omega)

/-- C6 amended witness: with two attempts, a first refused connect and a
second matching error (case-insensitively), the TCP probe aborts. -/
theorem c6_amended_abort_tcp_only_witness :
    scanSocket false 2 (2130706433, 80) (fun _ => UdpAttempt.timeout)
      (fun n => if n = 1 then ConnectAttempt.err ("connection refused")
        else ConnectAttempt.err ("Too MANY open FILES here"))
      = ProbeResult.abortPanic tooManyOpenFilesMsg :=
  (c6_amended_abort_tcp_only 2 2 (2130706433, 80) (fun _ => UdpAttempt.timeout)
    (fun n => if n = 1 then ConnectAttempt.err ("connection refused")
      else ConnectAttempt.err ("Too MANY open FILES here"))
    ("Too MANY open FILES here") (by omega) (by omega) rfl (by decide)
    (fun j hj1 hj2 => by
      have hj : j = 1 := by omega
      subst hj
      exact ⟨"connection refused", rfl, by decide⟩)).1

/-! ## C8: UDP probe semantics -/

theorem scanUdpLoop_timeout (tries : Nat) (socket : SockAddr)
    (attempts : Nat → UdpAttempt) :
    ∀ d nrTry, tries + 1 - nrTry = d →
      (∀ j, nrTry ≤ j → j ≤ tries → attempts j = UdpAttempt.timeout) →
      scanUdpLoop tries socket attempts nrTry =
        ProbeResult.error (udpTimeoutMsg socket) := by
  intro d
  induction d with
  | zero =>
    intro nrTry hd hall
    rw [scanUdpLoop, dif_pos (by omega)]
  | succ d ihd =>
    intro nrTry hd hall
    rw [scanUdpLoop]
    by_cases hc : tries < nrTry
    · rw [dif_pos hc]
    · rw [dif_neg hc]
      rw [hall nrTry (Nat.le_refl _) (by omega)]
      exact ihd (nrTry + 1) (by omega) (fun j hj1 hj2 => hall j (by omega) hj2)

theorem scanUdpLoop_ioError (tries : Nat) (socket : SockAddr)
    (attempts : Nat → UdpAttempt) :
    ∀ d nrTry k msg, k - nrTry = d → nrTry ≤ k → k ≤ tries →
      attempts k = UdpAttempt.ioError msg →
      (∀ j, nrTry ≤ j → j < k → attempts j = UdpAttempt.timeout) →
      scanUdpLoop tries socket attempts nrTry = ProbeResult.error msg := by
  intro d
  induction d with
  | zero =>
    intro nrTry k msg hd h1 h2 hk hbef
    have heq : nrTry = k := by omega
    subst heq
    rw [scanUdpLoop, dif_neg (by omega), hk]
  | succ d ihd =>
    intro nrTry k msg hd h1 h2 hk hbef
    have hlt : nrTry < k := by omega
    rw [scanUdpLoop, dif_neg (by omega), hbef nrTry (Nat.le_refl _) hlt]
    exact ihd (nrTry + 1) k msg (by omega) (by omega) h2 hk
      (fun j hj1 hj2 => hbef j (by omega) hj2)

theorem scanUdpLoop_opened_iff (tries : Nat) (socket : SockAddr)
    (attempts : Nat → UdpAttempt) :
    ∀ d nrTry, tries + 1 - nrTry = d →
      (scanUdpLoop tries socket attempts nrTry = ProbeResult.opened socket ↔
        ∃ k, nrTry ≤ k ∧ k ≤ tries ∧ attempts k = UdpAttempt.reply ∧
          ∀ j, nrTry ≤ j → j < k → attempts j = UdpAttempt.timeout) := by
  intro d
  induction d with
  | zero =>
    intro nrTry hd
    rw [scanUdpLoop, dif_pos (by omega)]
    constructor
    · intro h
      exact absurd h (by simp)
    · intro ⟨k, hk1, hk2, _, _⟩
      omega
  | succ d ihd =>
    intro nrTry hd
    rw [scanUdpLoop]
    by_cases hc : tries < nrTry
    · rw [dif_pos hc]
      constructor
      · intro h
        exact absurd h (by simp)
      · intro ⟨k, hk1, hk2, _, _⟩
        omega
    · rw [dif_neg hc]
      cases hatt : attempts nrTry with
      | reply =>
        constructor
        · intro _
          exact ⟨nrTry, Nat.le_refl _, by omega, hatt, fun j hj1 hj2 => by omega⟩
        · intro _
          rfl
      | timeout =>
        rw [ihd (nrTry + 1) (by omega)]
        constructor
        · intro ⟨k, hk1, hk2, hkr, hkb⟩
          refine ⟨k, by omega, hk2, hkr, fun j hj1 hj2 => ?_⟩
          rcases Nat.eq_or_lt_of_le hj1 with hj | hj
          · exact hj ▸ hatt
          · exact hkb j (by omega) hj2
        · intro ⟨k, hk1, hk2, hkr, hkb⟩
          have hkn : nrTry ≠ k := by
            intro h
            rw [← h, hatt] at hkr
            exact absurd hkr (by simp)
          exact ⟨k, by omega, hk2, hkr,
            fun j hj1 hj2 => hkb j (by omega) hj2⟩
      | ioError msg =>
        constructor
        · intro h
          exact absurd h (by simp)
        · intro ⟨k, hk1, hk2, hkr, hkb⟩
          have hkn : nrTry ≠ k := by
            intro h
            rw [← h, hatt] at hkr
            exact absurd hkr (by simp)
          have := hkb nrTry (Nat.le_refl _) (by omega)
          rw [hatt] at this
          exact absurd this (by simp)

/-- C8: in UDP mode a probe returns `Open(socket)` exactly when some
executed attempt receives an inbound datagram within the timeout (all
earlier attempts having timed out); if every one of the `tries` attempts
times out the probe returns an `Error` saying the UDP scan timed out; and
any non-timeout I/O error is returned immediately, without consuming
further attempts. -/
theorem c8_udp_semantics (tries : Nat) (socket : SockAddr)
    (attempts : Nat → UdpAttempt) :
    (scanUdpSocket tries socket attempts = ProbeResult.opened socket ↔
      ∃ k, 1 ≤ k ∧ k ≤ tries ∧ attempts k = UdpAttempt.reply ∧
        ∀ j, 1 ≤ j → j < k → attempts j = UdpAttempt.timeout) ∧
    ((∀ j, 1 ≤ j → j ≤ tries → attempts j = UdpAttempt.timeout) →
      scanUdpSocket tries socket attempts =
        ProbeResult.error (udpTimeoutMsg socket)) ∧
    (∀ k msg, 1 ≤ k → k ≤ tries → attempts k = UdpAttempt.ioError msg →
      (∀ j, 1 ≤ j → j < k → attempts j = UdpAttempt.timeout) →
      scanUdpSocket tries socket attempts = ProbeResult.error msg) := by
  refine ⟨?_, ?_, ?_⟩
  · exact scanUdpLoop_opened_iff tries socket attempts tries 1 (by omega)
  · intro hall
    exact scanUdpLoop_timeout tries socket attempts tries 1 (by omega)
      (fun j hj1 hj2 => hall j hj1 hj2)
  · intro k msg hk1 hk2 hk hbef
    exact scanUdpLoop_ioError tries socket attempts (k - 1) 1 k msg (by omega)
      hk1 hk2 hk hbef

/-- C8 witness: with two attempts, a timeout and then a reply, the UDP
probe reports the socket open. -/
theorem c8_udp_semantics_witness :
    scanUdpSocket 2 (2130706433, 53)
      (fun n => if n = 1 then UdpAttempt.timeout else UdpAttempt.reply)
      = ProbeResult.opened (2130706433, 53) :=
  (c8_udp_semantics 2 (2130706433, 53)
    (fun n => if n = 1 then UdpAttempt.timeout else UdpAttempt.reply)).1.mpr
    ⟨2, by omega, by omega, rfl, fun j hj1 hj2 => by
      have hj : j = 1 := by omega
      subst hj
      rfl⟩

end RustScan
